import Mathlib

/-!
Shallow embedding of `generate_docs.py`, a GDScript-to-markdown documentation
generator, together with theorems settling the specification claims.

Scripts are modelled as lists of raw lines, each line carrying its trailing
newline exactly as Python's `TextIOWrapper.readline` returns it (`readline`
yields the empty string only at end of file, which the `while line := ...`
loops treat as termination).  File positions produced by `tell`/`seek` are
modelled by returning the not-yet-consumed suffix of the line list.  Places
where the Python code can raise an exception (tuple unpacking of the wrong
arity, out-of-range indexing, a failed `re.match` being dereferenced) are
modelled by `Option`, with `none` meaning the program crashes.
-/

/-- Python's notion of whitespace for `str.isspace`, `str.strip` and `\s`
(ASCII part; the scripts handled here contain no exotic Unicode spaces). -/
def pyIsSpace (c : Char) : Bool :=
  c = ' ' || c = '\t' || c = '\n' || c = '\r' || c = Char.ofNat 11 || c = Char.ofNat 12

/-- Python's `\w` word character (ASCII part). -/
def pyIsWord (c : Char) : Bool :=
  c.isAlphanum || c = '_'

/-- Python `str.isspace()`: nonempty and every character is whitespace. -/
def pyStrIsSpace (s : String) : Bool :=
  !s.data.isEmpty && s.data.all pyIsSpace

/-- Python `str.lstrip()` (no argument form). -/
def pyLstrip (s : String) : String :=
  ⟨s.data.dropWhile pyIsSpace⟩

/-- Python `str.rstrip()` (no argument form). -/
def pyRstrip (s : String) : String :=
  ⟨(s.data.reverse.dropWhile pyIsSpace).reverse⟩

/-- Python `str.strip()` (no argument form). -/
def pyStrip (s : String) : String :=
  pyLstrip (pyRstrip s)

/-- Python `str.startswith(p)`. -/
def pyStartsWith (s p : String) : Bool :=
  p.data.isPrefixOf s.data

/-- Python `str.endswith(p)`. -/
def pyEndsWith (s p : String) : Bool :=
  p.data.isSuffixOf s.data

/-- Does `pat` occur as a contiguous substring (Python's `pat in s`)? -/
def containsSubL (pat : List Char) : List Char → Bool
  | [] => pat.isEmpty
  | c :: cs => pat.isPrefixOf (c :: cs) || containsSubL pat cs

/-- Python's `pat in s` substring test. -/
def pyContains (s pat : String) : Bool :=
  containsSubL pat.data s.data

/-- First index at which `pat` occurs, if any. -/
def findSubIdxL (pat : List Char) : List Char → Option Nat
  | [] => if pat.isEmpty then some 0 else none
  | c :: cs =>
    if pat.isPrefixOf (c :: cs) then some 0
    else (findSubIdxL pat cs).map (· + 1)

/-- Python `str.find(pat)`: first index of `pat`, or `-1` when absent. -/
def pyFind (s pat : String) : Int :=
  match findSubIdxL pat.data s.data with
  | some i => (i : Int)
  | none => -1

/-- Clamp one end of a Python slice to an actual list index
(negative indices count from the end, out-of-range values are clamped). -/
def pySliceIdx (len : Nat) (i : Int) : Nat :=
  if i < 0 then ((len : Int) + i).toNat else min i.toNat len

/-- Python slice `s[a:b]` over a character list. -/
def pySliceL (cs : List Char) (a b : Int) : List Char :=
  (cs.take (pySliceIdx cs.length b)).drop (pySliceIdx cs.length a)

/-- Python slice `s[a:b]`. -/
def pySlice (s : String) (a b : Int) : String :=
  ⟨pySliceL s.data a b⟩

/-- Python slice `s[a:]` for a nonnegative `a`. -/
def pySliceFrom (s : String) (a : Nat) : String :=
  ⟨s.data.drop a⟩

/-- Python indexing `s[i]`; `none` models the `IndexError` raised when the
index is out of range. -/
def pyGet (s : String) (i : Int) : Option Char :=
  let n := s.data.length
  let j : Int := if i < 0 then (n : Int) + i else i
  if j < 0 || (n : Int) ≤ j then none else s.data.get? j.toNat

/-- Replace every occurrence of `pat` (left to right, non-overlapping), the
core of `str.replace(pat, rep)`; `fuel` bounds the recursion and is always
instantiated with the length of the subject, which suffices because every
step consumes at least one character when `pat` is nonempty. -/
def pyReplaceAux (pat rep : List Char) : Nat → List Char → List Char
  | _, [] => []
  | 0, s => s
  | fuel + 1, c :: cs =>
    if pat.isPrefixOf (c :: cs) && !pat.isEmpty then
      rep ++ pyReplaceAux pat rep fuel ((c :: cs).drop pat.length)
    else
      c :: pyReplaceAux pat rep fuel cs

/-- Python `str.replace(pat, rep)` for a nonempty `pat` (all call sites in the
source use nonempty patterns). -/
def pyReplace (s pat rep : String) : String :=
  ⟨pyReplaceAux pat.data rep.data s.data.length s.data⟩

/-- Python `str.removeprefix(p)`. -/
def pyRemovePre (s p : String) : String :=
  if pyStartsWith s p then pySliceFrom s p.data.length else s

/-- Whitespace-run split, the core of no-argument `str.split()`;
`acc` is the current token, reversed. -/
def splitWsAux : List Char → List Char → List (List Char)
  | [], acc => if acc.isEmpty then [] else [acc.reverse]
  | c :: cs, acc =>
    if pyIsSpace c then
      if acc.isEmpty then splitWsAux cs [] else acc.reverse :: splitWsAux cs []
    else
      splitWsAux cs (c :: acc)

/-- Python `str.split()` with no arguments: split on whitespace runs, dropping
empty tokens. -/
def pySplitWs (s : String) : List String :=
  (splitWsAux s.data []).map (⟨·⟩)

/-- Python `str.split(maxsplit=n)` with whitespace separator: after `n` splits the
remainder (with its internal whitespace) is kept verbatim; a remainder that
is all whitespace is dropped. -/
def splitWsMaxAux : Nat → List Char → List (List Char)
  | maxsplit, cs =>
    let cs1 := cs.dropWhile pyIsSpace
    if cs1.isEmpty then []
    else
      match maxsplit with
      | 0 => [cs1]
      | m + 1 =>
        let tok := cs1.takeWhile (fun c => !pyIsSpace c)
        tok :: splitWsMaxAux m (cs1.drop tok.length)

/-- Python `str.split(maxsplit=n)` (whitespace separator). -/
def pySplitWsMax (n : Nat) (s : String) : List String :=
  (splitWsMaxAux n s.data).map (⟨·⟩)

/-- Split on a single-character separator, keeping empty pieces
(Python `str.split(sep)` for a one-character `sep`). -/
def splitCharAux (sep : Char) : List Char → List Char → List (List Char)
  | [], acc => [acc.reverse]
  | c :: cs, acc =>
    if c = sep then acc.reverse :: splitCharAux sep cs []
    else splitCharAux sep cs (c :: acc)

/-- Python `str.split(sep)` for a one-character separator. -/
def pySplitChar (sep : Char) (s : String) : List String :=
  (splitCharAux sep s.data []).map (⟨·⟩)

/-- Python `str.split(sep, maxsplit=1)` for a multi-character separator:
split at the first occurrence only, remainder kept verbatim. -/
def pySplitSubOnce (s sep : String) : List String :=
  match findSubIdxL sep.data s.data with
  | some i => [⟨s.data.take i⟩, ⟨s.data.drop (i + sep.data.length)⟩]
  | none => [s]

/-- Python `str.splitlines()` for text whose only line terminator is `\n`
(the only terminator occurring in the parsed scripts). -/
def pySplitlines (s : String) : List String :=
  if s.data.isEmpty then []
  else
    let parts := pySplitChar '\n' s
    if pyEndsWith s "\n" then parts.dropLast else parts

/-- Python `list.index(a)` over strings (first index; call sites guarantee
membership, and out-of-range results are never produced there). -/
def listIdxOf (a : String) : List String → Nat
  | [] => 0
  | x :: xs => if x = a then 0 else 1 + listIdxOf a xs

/-- Python `'\n'.join(parts)`. -/
def joinNL (parts : List String) : String :=
  String.intercalate "\n" parts

/-- Greedy `.*` (never matching a newline) followed by continuation `k`:
the longest consumable run is tried first, backtracking to shorter ones,
exactly as the regex engine does. -/
def starThen (k : List Char → Option α) : List Char → Option α
  | [] => k []
  | c :: cs =>
    if c = '\n' then k (c :: cs)
    else
      match starThen k cs with
      | some r => some r
      | none => k (c :: cs)

/-- Greedy capturing `(.*)` followed by continuation `k`, which receives the
captured characters and the remainder; `acc` is the capture so far,
reversed. -/
def starCapThen (k : List Char → List Char → Option α) : List Char → List Char → Option α
  | acc, [] => k acc.reverse []
  | acc, c :: cs =>
    if c = '\n' then k acc.reverse (c :: cs)
    else
      match starCapThen k (c :: acc) cs with
      | some r => some r
      | none => k acc.reverse (c :: cs)

/-- Match `\[img.*\](.*)\[\/img\]` at the head of `cs` (both stars greedy,
`.` not matching a newline), returning the capture and the remainder after
the match. -/
def matchImgAt (cs : List Char) : Option (List Char × List Char) :=
  if ("[img".data).isPrefixOf cs then
    starThen
      (fun r1 =>
        match r1 with
        | ']' :: r2 =>
          starCapThen
            (fun cap r3 =>
              if ("[/img]".data).isPrefixOf r3 then some (cap, r3.drop 6) else none)
            [] r2
        | _ => none)
      (cs.drop 4)
  else none

/-- Left-to-right non-overlapping substitution scan for the image pattern;
`fuel` is instantiated with the subject length, which suffices because each
step consumes at least one character. -/
def subImgAux : Nat → List Char → List Char
  | 0, cs => cs
  | _ + 1, [] => []
  | fuel + 1, c :: cs =>
    match matchImgAt (c :: cs) with
    | some (cap, rest) => "![](".data ++ cap ++ [')'] ++ subImgAux fuel rest
    | none => c :: subImgAux fuel cs

/-- Python `re.sub` of the image pattern with replacement `![](\1)`. -/
def subImg (s : String) : String :=
  ⟨subImgAux s.data.length s.data⟩

/-- Match `\[url=(.*)\](.*)\[\/url\]` at the head of `cs`, returning both
captures and the remainder after the match. -/
def matchUrlAt (cs : List Char) : Option (List Char × List Char × List Char) :=
  if ("[url".data).isPrefixOf cs then
    match cs.drop 4 with
    | '=' :: r1 =>
      starCapThen
        (fun cap1 r2 =>
          match r2 with
          | ']' :: r3 =>
            starCapThen
              (fun cap2 r4 =>
                if ("[/url]".data).isPrefixOf r4 then some (cap1, cap2, r4.drop 6) else none)
              [] r3
          | _ => none)
        [] r1
    | _ => none
  else none

/-- Left-to-right non-overlapping substitution scan for the url pattern. -/
def subUrlAux : Nat → List Char → List Char
  | 0, cs => cs
  | _ + 1, [] => []
  | fuel + 1, c :: cs =>
    match matchUrlAt (c :: cs) with
    | some (cap1, cap2, rest) =>
      '[' :: cap2 ++ [']', '('] ++ cap1 ++ [')'] ++ subUrlAux fuel rest
    | none => c :: subUrlAux fuel cs

/-- Python `re.sub` of the url pattern with replacement `[\2](\1)`. -/
def subUrl (s : String) : String :=
  ⟨subUrlAux s.data.length s.data⟩

/-- The `simple_tags` table, in the source's insertion order. -/
def simpleTags : List (String × String) :=
  [("b", "**"), ("i", "_"), ("s", "~~"), ("code", "`"), ("codeblock", "```"),
   ("br", "\n"), ("url", "")]

/-- One iteration of the tag-replacement loop: replace the opening and then
the closing form of a tag by its markdown equivalent. -/
def applyTagPair (t : String) (p : String × String) : String :=
  pyReplace (pyReplace t ("[" ++ p.1 ++ "]") p.2) ("[/" ++ p.1 ++ "]") p.2

/-- Model of `bbcode_to_md`: the image substitution, then the url substitution, then
the literal tag replacements in table order. -/
def bbcode_to_md (text : String) : String :=
  simpleTags.foldl applyTagPair (subUrl (subImg text))

structure ArgInfo where
  name : String
  type : Option String := none
  default : Option String := none
deriving DecidableEq, Repr

/-- The slice `definition[definition.find('(') + 1 : definition.find(')')]`
(with Python's `-1` convention when a parenthesis is absent). -/
def argSlice (definition : String) : String :=
  pySlice definition (pyFind definition "(" + 1) (pyFind definition ")")

/-- One argument of a parameter list: split off a default after `=`, then a
declared type after `:`; the remainder is the name.  Stripping happens only
inside those two branches, exactly as in the source.  `none` models the
`ValueError` of a tuple unpacking against more than one `=` or `:`. -/
def parseArg (arg0 : List Char) : Option ArgInfo := do
  let (arg, dflt) ←
    if containsSubL ['='] arg0 then
      match splitCharAux '=' arg0 [] with
      | [a1, d1] => some ((pyStrip ⟨a1⟩).data, some (pyStrip ⟨d1⟩))
      | _ => none
    else some (arg0, none)
  if containsSubL [':'] arg then
    match splitCharAux ':' arg [] with
    | [n1, t1] => some ⟨pyStrip ⟨n1⟩, some (pyStrip ⟨t1⟩), dflt⟩
    | _ => none
  else some ⟨⟨arg⟩, none, dflt⟩

/-- Model of `ArgInfo.parse_definition`.  The source's `arg_str.replace('\n', '')`
discards its result (Python strings are immutable and the expression is not
assigned), so no newline removal actually happens and none is modelled. -/
def ArgInfo.parse_definition (definition : String) : Option (List ArgInfo) :=
  let arg_str := argSlice definition
  (pySplitChar ',' (pyStrip arg_str)).mapM (fun a => parseArg a.data)

structure MethodInfo where
  name : String
  description : Option String
  args : List ArgInfo := []
  return_type : Option String := none
deriving DecidableEq, Repr

/-- The signature-accumulation loop of `MethodInfo.parse_from_script`: each
following line is stripped and appended, the loop stops once the cumulative
text right-trimmed ends in a colon, and the line read in the breaking
iteration is handed back (its `file_pos` checkpoint was not advanced).
Returns the accumulated text, the last line read and the remaining lines. -/
def methodScan : String → String → List String → (String × String × List String)
  | acc, last, [] => (acc, last, [])
  | acc, _, l :: ls =>
    let acc2 := acc ++ pyStrip l
    if pyEndsWith (pyRstrip acc2) ":" then (acc2, l, l :: ls)
    else methodScan acc2 l ls

/-- Model of `MethodInfo.parse_from_script`. -/
def MethodInfo.parse_from_script (curr_line : String) (description : Option String)
    (lines : List String) : Option (MethodInfo × List String) :=
  let scan := methodScan curr_line curr_line lines
  let args_lines := scan.1
  let last_line := scan.2.1
  let rem := scan.2.2
  match ArgInfo.parse_definition args_lines with
  | none => none
  | some args =>
    let return_type :=
      if pyContains last_line "->" then
        some (pyStrip (pySlice (pyRstrip last_line) (pyFind last_line "->" + 2) (-1)))
      else none
    some ({ name := pyStrip (pySlice curr_line (pyFind curr_line " ") (pyFind curr_line "(")),
            description := description, args := args, return_type := return_type }, rem)

structure SignalInfo where
  name : String
  description : Option String
  args : List ArgInfo := []
deriving DecidableEq, Repr

/-- The accumulation loop of `SignalInfo.parse_from_script`: the terminating
check (cumulative text right-trimmed ends in `)`) runs before the freshly
read line is appended, and that line is handed back on termination. -/
def signalScan : String → List String → (String × List String)
  | acc, [] => (acc, [])
  | acc, l :: ls =>
    if pyEndsWith (pyRstrip acc) ")" then (acc, l :: ls)
    else signalScan (acc ++ pyStrip l) ls

/-- Model of `SignalInfo.parse_from_script`. -/
def SignalInfo.parse_from_script (curr_line : String) (description : Option String)
    (lines : List String) : Option (SignalInfo × List String) :=
  let name := pyStrip (pySlice curr_line (pyFind curr_line " ") (pyFind curr_line "("))
  if pyContains curr_line "(" then
    let scan := signalScan curr_line lines
    match ArgInfo.parse_definition scan.1 with
    | none => none
    | some args => some ({ name := name, description := description, args := args }, scan.2)
  else some ({ name := name, description := description, args := [] }, lines)

structure PropertyInfo where
  name : String
  type : Option String
  description : Option String
  default : Option String
  has_setter : Bool := false
  has_getter : Bool := false
deriving DecidableEq, Repr

/-- The negative-lookahead body `[gs]et\s*=` of the property header
pattern. -/
def lookGsetEq : List Char → Bool
  | c :: 'e' :: 't' :: r =>
    (c = 'g' || c = 's') &&
      (match r.dropWhile pyIsSpace with
       | '=' :: _ => true
       | _ => false)
  | _ => false

/-- Optional group `(?:\s*\:\s*(?![gs]et\s*=)(\w+))?` (the type hint) of
the property header pattern.  A `\w+` cannot start on a whitespace
character, so of all the positions the engine's backtracking over `\s*`
tries, only the one after the whole whitespace run can succeed, and there
the negative lookahead decides.  Returns the capture (if the group matched)
and the remainder. -/
def propTypeGroup (r : List Char) : Option (List Char) × List Char :=
  let r1 := r.dropWhile pyIsSpace
  match r1 with
  | ':' :: r2 =>
    let r3 := r2.dropWhile pyIsSpace
    if lookGsetEq r3 then (none, r)
    else
      let t := r3.takeWhile pyIsWord
      if t.isEmpty then (none, r) else (some t, r3.drop t.length)
  | _ => (none, r)

/-- Optional group `(?:\s*(\:?\s*\=)\s*(\w+))?` (assignment operator and
default) of the property header pattern.  `:`, `=` and whitespace are
disjoint character classes, so dropping the optional `:` during
backtracking can never turn a failure into a success and the group reduces
to this direct scan.  Returns (assign-op capture, default capture,
remainder). -/
def propDefaultGroup (r : List Char) : Option (List Char) × Option (List Char) × List Char :=
  let r1 := r.dropWhile pyIsSpace
  let colon := match r1 with | ':' :: _ => true | _ => false
  let r2 := if colon then r1.drop 1 else r1
  let ws2 := r2.takeWhile pyIsSpace
  let r3 := r2.drop ws2.length
  match r3 with
  | '=' :: r4 =>
    let r5 := r4.dropWhile pyIsSpace
    let d := r5.takeWhile pyIsWord
    if d.isEmpty then (none, none, r)
    else (some ((if colon then [':'] else []) ++ ws2 ++ ['=']), some d, r5.drop d.length)
  | _ => (none, none, r)

/-- Trailing group `\s*(?::(.+))?` of the property header pattern (the
inline getter/setter spec after a colon); `.` does not match a newline. -/
def propSetgetGroup (r : List Char) : Option (List Char) :=
  match r.dropWhile pyIsSpace with
  | ':' :: r2 =>
    let cap := r2.takeWhile (fun c => c ≠ '\n')
    if cap.isEmpty then none else some cap
  | _ => none

/-- Python `re.match` of the property header pattern
`var\s+(\w+)(?:\s*\:\s*(?![gs]et\s*=)(\w+))?(?:\s*(\:?\s*\=)\s*(\w+))?\s*(?::(.+))?`,
returning the five captured groups (name, type hint, assignment operator,
default, inline get/set spec).  `none` models a failed match, whose
`.groups()` dereference crashes the source.  Everything after the name
group is nullable, so the engine never backtracks into an earlier greedy
choice and the match is this deterministic left-to-right scan. -/
def propHeaderMatch (s : String) :
    Option (String × Option String × Option String × Option String × Option String) :=
  match s.data with
  | 'v' :: 'a' :: 'r' :: rest =>
    let ws := rest.takeWhile pyIsSpace
    if ws.isEmpty then none
    else
      let r1 := rest.drop ws.length
      let nm := r1.takeWhile pyIsWord
      if nm.isEmpty then none
      else
        let r2 := r1.drop nm.length
        let tg := propTypeGroup r2
        let dg := propDefaultGroup tg.2
        let sg := propSetgetGroup dg.2.2
        some (⟨nm⟩, tg.1.map (⟨·⟩), dg.1.map (⟨·⟩), dg.2.1.map (⟨·⟩), sg.map (⟨·⟩))
  | _ => none

/-- Does `re.findall(r'\s*' + tag + r'\s*=\s*(\w+)', text)` find a match at
this position?  The leading `\s*` matches the empty string, so only the
core `tag\s*=\s*\w` matters for non-emptiness of the result. -/
def tagEqAt (tag : List Char) (cs : List Char) : Bool :=
  tag.isPrefixOf cs &&
    (match (cs.drop tag.length).dropWhile pyIsSpace with
     | '=' :: r =>
       (match r.dropWhile pyIsSpace with
        | c :: _ => pyIsWord c
        | [] => false)
     | _ => false)

/-- Search for the `tag\s*=\s*\w+` pattern anywhere in the text. -/
def hasTagEq (tag : List Char) : List Char → Bool
  | [] => false
  | c :: cs => tagEqAt tag (c :: cs) || hasTagEq tag cs

/-- Model of `PropertyInfo._parse_inline_getset`. -/
def PropertyInfo._parse_inline_getset (info : PropertyInfo) (text : String) : PropertyInfo :=
  let i1 := if hasTagEq "set".data text.data then { info with has_setter := true } else info
  if hasTagEq "get".data text.data then { i1 with has_getter := true } else i1

/-- The indented-continuation loop of `PropertyInfo.parse_from_script`:
consume following lines while they start with whitespace, recording
setter/getter evidence, and hand back the first non-indented line.  `none`
models the `IndexError` of `line[0]` on an empty string (which `readline`
never actually produces mid-file). -/
def propScan : PropertyInfo → List String → Option (PropertyInfo × List String)
  | info, [] => some (info, [])
  | info, l :: ls =>
    match pyGet l 0 with
    | none => none
    | some c =>
      if !pyIsSpace c then some (info, l :: ls)
      else
        let i1 := PropertyInfo._parse_inline_getset info l
        let i2 :=
          if pyStartsWith (pyLstrip l) "set" then { i1 with has_setter := true }
          else if pyStartsWith (pyLstrip l) "get" then { i1 with has_getter := true }
          else i1
        propScan i2 ls

/-- The container-default normalisation of `PropertyInfo.parse_from_script`
(note the slice `default[0:default.find('}')]` starts at the opening brace
itself, exactly as in the source). -/
def normalizeDefault (d : String) : String :=
  if pyGet d 0 = some '{' then
    if pyStrIsSpace (pySlice d 0 (pyFind d "\x7d")) then "\x7b\x7d" else "\x7b...\x7d"
  else if pyGet d 0 = some '[' then
    if pyStrIsSpace (pySlice d 0 (pyFind d "]")) then "[]" else "[...]"
  else d

/-- Model of `PropertyInfo.parse_from_script`. -/
def PropertyInfo.parse_from_script (curr_line : String) (description : Option String)
    (onready : Bool) (lines : List String) : Option (PropertyInfo × List String) :=
  match propHeaderMatch curr_line with
  | none => none
  | some (name, type_hint, _assign_op, default0, setget_def) =>
    let d1 := if onready then none else default0
    let d2 := d1.map normalizeDefault
    let info : PropertyInfo :=
      { name := name, type := type_hint, description := description, default := d2 }
    let info2 :=
      match setget_def with
      | some sg => PropertyInfo._parse_inline_getset info sg
      | none => info
    propScan info2 lines

/-- A key of the Python dict stored in `EnumInfo.vals`.  The field is
annotated `dict[str, str | None]` in the source, but the single-line branch
builds it with `dict.fromkeys([(val, None) for val in values])`, which makes
the `(val, None)` tuples themselves the keys — hence the sum. -/
inductive PyKey where
  | str (v : String)
  | tup (v : String) (d : Option String)
deriving DecidableEq, Repr

structure EnumInfo where
  name : String
  description : Option String
  vals : List (PyKey × Option String) := []
deriving DecidableEq, Repr

/-- Ordered-dict insertion (`d[k] = v`): overwrite in place when the key
exists, else append. -/
def dictSet (m : List (PyKey × Option String)) (k : PyKey) (v : Option String) :
    List (PyKey × Option String) :=
  if m.any (fun p => p.1 == k) then m.map (fun p => if p.1 == k then (k, v) else p)
  else m ++ [(k, v)]

/-- Python `dict.fromkeys(keys)`: every key maps to `None`, first occurrence fixes
the position. -/
def dictFromKeys (ks : List PyKey) : List (PyKey × Option String) :=
  ks.foldl (fun acc k => if acc.any (fun p => p.1 == k) then acc else acc ++ [(k, none)]) []

/-- The multi-line member loop of `EnumInfo.parse_from_script`.  Falling
off the end of the file makes the Python function return `None` (modelled
by the inner `none`), which the dispatcher appends to the enum list
as-is. -/
def enumScan : EnumInfo → List String → Option (Option EnumInfo × List String)
  | _, [] => some (none, [])
  | info, l :: ls =>
    if pyStrIsSpace l then enumScan info ls
    else
      match pyGet (pyRstrip l) (-1) with
      | none => none
      | some c =>
        if c = '}' then some (some info, ls)
        else if pyContains l "##" then
          match pySplitSubOnce l "##" with
          | [v, d] =>
            enumScan
              { info with
                vals := dictSet info.vals (PyKey.str (pyReplace (pyStrip v) "," ""))
                  (some (pyStrip d)) } ls
          | _ => none
        else
          enumScan
            { info with
              vals := dictSet info.vals (PyKey.str (pyReplace (pyStrip l) "," "")) none } ls

/-- Model of `EnumInfo.parse_from_script`.  `none` models the `IndexError` of
`curr_line.split()[1]` when the header has no second token. -/
def EnumInfo.parse_from_script (curr_line : String) (description : Option String)
    (lines : List String) : Option (Option EnumInfo × List String) :=
  match (pySplitWs curr_line).get? 1 with
  | none => none
  | some nm =>
    let info : EnumInfo := { name := nm, description := description }
    match pyGet (pyRstrip curr_line) (-1) with
    | none => none
    | some c =>
      if c = '}' then
        let values := pySplitChar ','
          (pyReplace (pySlice curr_line (pyFind curr_line "\x7b" + 1) (pyFind curr_line "\x7d"))
            " " "")
        some (some { info with vals := dictFromKeys (values.map (fun v => PyKey.tup v none)) },
          lines)
      else enumScan info lines

/-- The class document.  The field `ext` models the Python dataclass field
`extends` (a Lean keyword); `enums` may contain `none` because the
multi-line enum parser can return Python `None` at end of file. -/
structure ClassInfo where
  file_path : String := ""
  name : Option String := none
  ext : String := ""
  summary : Option String := none
  description : Option String := none
  signals : List SignalInfo := []
  enums : List (Option EnumInfo) := []
  properties : List PropertyInfo := []
  methods : List MethodInfo := []
deriving DecidableEq, Repr

/-- The mutable locals of the `ClassInfo.parse_script_header` scan. -/
structure HeaderSt where
  nm : Option String := none
  ext : String := ""
  fullDesc : String := ""
  defFound : Bool := false
deriving DecidableEq, Repr

/-- One line's processing inside `ClassInfo.parse_script_header`.  The
`class_name` branch reassigns `line` to `line.split(maxsplit=2)[-1]` before
the `extends` and doc-comment checks run on it.  `none` models the
`IndexError` of `line.split()[1]` on a `class_name` or `extends` keyword
with no following token. -/
def headerProcess (st : HeaderSt) (l : String) : Option HeaderSt :=
  match
    (if pyStartsWith l "class_name" then
      match (pySplitWs l).get? 1 with
      | none => none
      | some nm => some ({ st with nm := some nm }, (pySplitWsMax 2 l).getLastD "")
    else some (st, l)) with
  | none => none
  | some s1 =>
    match
      (if pyStartsWith s1.2 "extends" then
        match (pySplitWs s1.2).get? 1 with
        | none => none
        | some e => some { s1.1 with ext := e, defFound := true }
      else some s1.1) with
    | none => none
    | some st2 =>
      if pyStartsWith (pyLstrip s1.2) "##" then
        some { st2 with
          fullDesc := st2.fullDesc ++ pyStrip (pySliceFrom (pyLstrip s1.2) 2) ++ "\n" }
      else some st2

/-- The scan loop of `ClassInfo.parse_script_header`.  `pend` holds the
lines read since the last `file_pos` checkpoint (the checkpoint is skipped
exactly by the blank-line `continue`), so the final `seek(file_pos)` makes
`pend` visible again: on end of file the remaining lines are `pend`, and on
the `def_found` break they are `pend` followed by the breaking line and the
rest. -/
def headerLoop : HeaderSt → List String → List String → Option (List String × HeaderSt)
  | st, pend, [] => some (pend, st)
  | st, pend, l :: ls =>
    if st.defFound && !pyStartsWith (pyLstrip l) "##" then some (pend ++ l :: ls, st)
    else if pyStrIsSpace l then headerLoop st (pend ++ [l]) ls
    else
      match headerProcess st l with
      | none => none
      | some st2 => headerLoop st2 [] ls

/-- Model of `ClassInfo.parse_script_header` up to the final summary/description
split: returns the lines the dispatcher will see and the header state. -/
def ClassInfo.parse_script_header (lines : List String) : Option (List String × HeaderSt) :=
  headerLoop {} [] lines

/-- The summary/description split at the end of
`ClassInfo.parse_script_header`: an empty buffer sets nothing; a buffer
without a blank line becomes the summary verbatim (only stripped, not
markup-converted); otherwise the text before the first blank line becomes
the summary and the text after it the description, both markup-converted. -/
def headerSummaryDesc (fullDesc : String) : Option String × Option String :=
  if fullDesc = "" then (none, none)
  else if !(pySplitlines fullDesc).contains "" then (some (pyStrip fullDesc), none)
  else
    let ls := pySplitlines fullDesc
    let i := listIdxOf "" ls
    (some (bbcode_to_md (joinNL (ls.take i))), some (bbcode_to_md (joinNL (ls.drop (i + 1)))))

/-- The keyword dispatch at the end of one dispatcher iteration: classify
the (annotation-stripped) line by its leading keyword, run the matching
sub-parser and append its result; in every branch — matched or not,
description attached or not — the docstring buffer handed back is empty. -/
def dispatchDecl (onready : Bool) (line : String) (ls : List String)
    (description : Option String) (info : ClassInfo) :
    Option (List String × String × ClassInfo) :=
  if pyStartsWith line "signal" then
    (SignalInfo.parse_from_script line description ls).map
      (fun p => (p.2, "", { info with signals := info.signals ++ [p.1] }))
  else if pyStartsWith line "enum" then
    (EnumInfo.parse_from_script line description ls).map
      (fun p => (p.2, "", { info with enums := info.enums ++ [p.1] }))
  else if pyStartsWith line "var" then
    (PropertyInfo.parse_from_script line description onready ls).map
      (fun p => (p.2, "", { info with properties := info.properties ++ [p.1] }))
  else if pyStartsWith line "func" then
    (MethodInfo.parse_from_script line description ls).map
      (fun p => (p.2, "", { info with methods := info.methods ++ [p.1] }))
  else some (ls, "", info)

/-- One iteration of the declaration dispatcher loop in
`ClassInfo.parse_from_script`: given the line just read, the rest of the
file, the docstring buffer and the class document, produce the remaining
lines, the docstring buffer for the next iteration and the updated
document.  The annotation match models
`annotation, line = line.split(maxsplit=1)` (its crash case is unreachable
behind the single-token guard). -/
def dispatchStep (l : String) (ls : List String) (doc : String) (info : ClassInfo) :
    Option (List String × String × ClassInfo) :=
  if pyStrIsSpace l then some (ls, doc, info)
  else if pyStartsWith (pyLstrip l) "##" then
    some (ls, doc ++ pyLstrip (pySliceFrom l 2), info)
  else if pyStartsWith l "@" && (pySplitWs l).length == 1 then some (ls, doc, info)
  else
    match
      (if pyStartsWith l "@" then
        match pySplitWsMax 1 l with
        | [a, rest] => some (a == "@onready", rest)
        | _ => none
      else some (false, l)) with
    | none => none
    | some al =>
      dispatchDecl al.1 al.2 ls (if doc ≠ "" then some (bbcode_to_md doc) else none) info

/-- The dispatcher loop.  `fuel` bounds the iteration count and is
instantiated with one more than the number of remaining lines, which
suffices because every iteration consumes at least the line it read. -/
def dispatchLoop : Nat → List String → String → ClassInfo → Option ClassInfo
  | _, [], _, info => some info
  | 0, _ :: _, _, _ => none
  | fuel + 1, l :: ls, doc, info =>
    match dispatchStep l ls doc info with
    | none => none
    | some r => dispatchLoop fuel r.1 r.2.1 r.2.2

/-- Model of `ClassInfo.parse_from_script` (minus opening the file): parse the
header, then drive the declaration dispatcher over the remaining lines. -/
def ClassInfo.parse_from_script (lines : List String) : Option ClassInfo :=
  match ClassInfo.parse_script_header lines with
  | none => none
  | some (rem, st) =>
    let sd := headerSummaryDesc st.fullDesc
    dispatchLoop (rem.length + 1) rem ""
      { name := st.nm, ext := st.ext, summary := sd.1, description := sd.2 }

/-- Quote stripping applied to a base-class reference by the hierarchy
walk. -/
def stripQuotes (s : String) : String :=
  pyReplace (pyReplace s "\"" "") "'" ""

/-- One normalisation step of the hierarchy walk: a reference that (after
quote stripping) ends in `.gd` is unquoted, stripped of the `res://` prefix
and its path separators replaced by `-`; anything else is untouched. -/
def normBase (b : String) : String :=
  if pyEndsWith (stripQuotes b) ".gd" then
    pyReplace (pyRemovePre (stripQuotes b) "res://") "/" "-"
  else b

/-- Lookup in the registry of parsed classes, an insertion-ordered mapping
from resolved class name to that class's `extends` reference. -/
def lookupExtends (infos : List (String × String)) (k : String) : Option String :=
  (infos.find? (fun p => p.1 == k)).map Prod.snd

/-- The path segments `pathlib.Path(s)` contributes when joined: splitting
on `/` with empty parts collapsed (the empty string contributes nothing). -/
def pathSegs (s : String) : List String :=
  (pySplitChar '/' s).filter (fun t => t ≠ "")

/-- The base-class walk of the `__main__` hierarchy resolver: normalise the
reference, prepend its path segments, stop when it names no parsed class,
else continue with that class's own `extends` reference.  `fuel` bounds the
iteration count; `none` means the `while True` loop did not reach its
`break` within `fuel` iterations. -/
def hierWalk (infos : List (String × String)) : Nat → String → List String → Option (List String)
  | 0, _, _ => none
  | fuel + 1, base, acc =>
    let b := normBase base
    let acc2 := pathSegs b ++ acc
    match lookupExtends infos b with
    | none => some acc2
    | some e => hierWalk infos fuel e acc2

/-- The output path (relative to the output directory) the resolver chooses
for the class registered under `name`: the walk's accumulated segments,
root-most first, followed by `name + ".md"`. -/
def hierPath (infos : List (String × String)) (fuel : Nat) (name : String) :
    Option (List String) :=
  match lookupExtends infos name with
  | none => none
  | some ext => (hierWalk infos fuel ext []).map (fun p => p ++ [name ++ ".md"])

/-- The line the header parser's `extends` check actually sees: the
`class_name` branch replaces the line by `line.split(maxsplit=2)[-1]`
first. -/
def headerEff (l : String) : String :=
  if pyStartsWith l "class_name" then (pySplitWsMax 2 l).getLastD "" else l

/-- The literal pieces of markup the converter reacts to: a string
containing none of these as a substring cannot match the image or url
pattern and cannot contain any simple tag. -/
def tagLits : List String :=
  ["[img", "[/img]", "[url", "[url]", "[/url]", "[b]", "[/b]", "[i]", "[/i]", "[s]", "[/s]",
   "[code]", "[/code]", "[codeblock]", "[/codeblock]", "[br]", "[/br]"]

theorem pyReplaceAux_not_contained (pat rep : List Char) :
    ∀ (fuel : Nat) (s : List Char), containsSubL pat s = false →
      pyReplaceAux pat rep fuel s = s := by
  intro fuel
  induction fuel with
  | zero => intro s _; cases s <;> rfl
  | succ n ih =>
    intro s hs
    cases s with
    | nil => rfl
    | cons c cs =>
      rw [containsSubL, Bool.or_eq_false_iff] at hs
      rw [pyReplaceAux, if_neg (by simp [hs.1]), ih cs hs.2]

theorem pyReplace_not_contained (s pat rep : String) (h : pyContains s pat = false) :
    pyReplace s pat rep = s := by
  unfold pyReplace
  rw [pyReplaceAux_not_contained pat.data rep.data s.data.length s.data h]

theorem matchImgAt_eq_none (cs : List Char) (h : ("[img".data).isPrefixOf cs = false) :
    matchImgAt cs = none := by
  unfold matchImgAt
  rw [h]
  rfl

theorem subImgAux_not_contained :
    ∀ (fuel : Nat) (s : List Char), containsSubL "[img".data s = false →
      subImgAux fuel s = s := by
  intro fuel
  induction fuel with
  | zero => intro s _; rfl
  | succ n ih =>
    intro s hs
    cases s with
    | nil => rfl
    | cons c cs =>
      rw [containsSubL, Bool.or_eq_false_iff] at hs
      rw [subImgAux, matchImgAt_eq_none _ hs.1, ih cs hs.2]

theorem subImg_not_contained (s : String) (h : pyContains s "[img" = false) :
    subImg s = s := by
  unfold subImg
  rw [subImgAux_not_contained s.data.length s.data h]

theorem matchUrlAt_eq_none (cs : List Char) (h : ("[url".data).isPrefixOf cs = false) :
    matchUrlAt cs = none := by
  unfold matchUrlAt
  rw [h]
  rfl

theorem subUrlAux_not_contained :
    ∀ (fuel : Nat) (s : List Char), containsSubL "[url".data s = false →
      subUrlAux fuel s = s := by
  intro fuel
  induction fuel with
  | zero => intro s _; rfl
  | succ n ih =>
    intro s hs
    cases s with
    | nil => rfl
    | cons c cs =>
      rw [containsSubL, Bool.or_eq_false_iff] at hs
      rw [subUrlAux, matchUrlAt_eq_none _ hs.1, ih cs hs.2]

theorem subUrl_not_contained (s : String) (h : pyContains s "[url" = false) :
    subUrl s = s := by
  unfold subUrl
  rw [subUrlAux_not_contained s.data.length s.data h]

theorem applyTagPair_id (t : String) (p : String × String)
    (h1 : pyContains t ("[" ++ p.1 ++ "]") = false)
    (h2 : pyContains t ("[/" ++ p.1 ++ "]") = false) :
    applyTagPair t p = t := by
  unfold applyTagPair
  rw [pyReplace_not_contained t _ _ h1, pyReplace_not_contained t _ _ h2]


/-- C9: for every input string containing none of the recognized markup
tag pieces (image, url, bold, italic, strikethrough, inline code, code
block, line break — listed in `tagLits`), `bbcode_to_md` returns the input
unchanged. -/
theorem bbcode_to_md_no_tags_id (t : String) (h : ∀ p ∈ tagLits, pyContains t p = false) :
    bbcode_to_md t = t := by
  have himg : subImg t = t :=
    subImg_not_contained t (h "[img" (by simp [tagLits]))
  have hurl : subUrl t = t :=
    subUrl_not_contained t (h "[url" (by simp [tagLits]))
  unfold bbcode_to_md simpleTags
  rw [himg, hurl]
  simp only [List.foldl_cons, List.foldl_nil]
  rw [applyTagPair_id t ("b", "**") (h "[b]" (by simp [tagLits]))
    (h "[/b]" (by simp [tagLits]))]
  rw [applyTagPair_id t ("i", "_") (h "[i]" (by simp [tagLits]))
    (h "[/i]" (by simp [tagLits]))]
  rw [applyTagPair_id t ("s", "~~") (h "[s]" (by simp [tagLits]))
    (h "[/s]" (by simp [tagLits]))]
  rw [applyTagPair_id t ("code", "`") (h "[code]" (by simp [tagLits]))
    (h "[/code]" (by simp [tagLits]))]
  rw [applyTagPair_id t ("codeblock", "```") (h "[codeblock]" (by simp [tagLits]))
    (h "[/codeblock]" (by simp [tagLits]))]
  rw [applyTagPair_id t ("br", "\n") (h "[br]" (by simp [tagLits]))
    (h "[/br]" (by simp [tagLits]))]
  rw [applyTagPair_id t ("url", "") (h "[url]" (by simp [tagLits]))
    (h "[/url]" (by simp [tagLits]))]

/-- C9 witness: a concrete tag-free string is returned unchanged. -/
theorem bbcode_to_md_no_tags_id_witness : bbcode_to_md "hello world" = "hello world" :=
  bbcode_to_md_no_tags_id "hello world" (by decide)

theorem hierWalk_fuel_succ (infos : List (String × String)) :
    ∀ (fuel : Nat) (base : String) (acc p : List String),
      hierWalk infos fuel base acc = some p → hierWalk infos (fuel + 1) base acc = some p := by
  intro fuel
  induction fuel with
  | zero => intro base acc p h; exact absurd h (by simp [hierWalk])
  | succ n ih =>
    intro base acc p h
    rw [hierWalk] at h ⊢
    cases hl : lookupExtends infos (normBase base) with
    | none => simp only [hl] at h ⊢; exact h
    | some e => simp only [hl] at h ⊢; exact ih e _ p h

theorem hierWalk_fuel_le (infos : List (String × String)) (f g : Nat) (hfg : f ≤ g)
    (base : String) (acc p : List String) (h : hierWalk infos f base acc = some p) :
    hierWalk infos g base acc = some p := by
  induction g with
  | zero => cases Nat.le_zero.mp hfg; exact h
  | succ n ih =>
    rcases Nat.lt_or_ge f (n + 1) with hlt | hge
    · exact hierWalk_fuel_succ infos n base acc p (ih (Nat.lt_succ_iff.mp hlt))
    · cases Nat.le_antisymm hfg hge; exact h

/-- C1 counterexample: for the single parsed class `A` whose base is the
unresolved external type `Node`, the resolver's output path is
`Node/A.md`, not `A.md` — the walk adds the unresolved reference as a path
segment before it stops. -/
theorem c1_unresolved_base_counterexample :
    hierPath [("A", "Node")] 1 "A" = some ["Node", "A.md"] ∧
    hierPath [("A", "Node")] 1 "A" ≠ some ["A.md"] := by
  constructor
  · rfl
  · decide

/-- C1 (amended): the hierarchy walk prepends the path segments of every
reference it reaches, including the final reference that names no parsed
class; a reference that is the empty string contributes no segment.  Hence
for parsed classes `A extends B`, `B extends C` with `C`'s reference empty
the output path is `C/B/A.md`, and for a class `A` whose base is an
unresolved external type `E` the output path is `E/A.md`. -/
theorem hierPath_unresolved_and_chain (E : String) (fuel : Nat) (hf : 3 ≤ fuel)
    (hgd : pyEndsWith (stripQuotes E) ".gd" = false)
    (hne : E ≠ "A") (hseg : pathSegs E = [E]) :
    hierPath [("A", E)] fuel "A" = some [E, "A.md"] ∧
    hierPath [("A", "B"), ("B", "C"), ("C", "")] fuel "A" = some ["C", "B", "A.md"] := by
  constructor
  · have hnorm : normBase E = E := by unfold normBase; rw [hgd]; rfl
    have hAE : (("A" : String) == E) = false := by
      rw [beq_eq_false_iff_ne]
      exact fun h => hne h.symm
    have hlookE : lookupExtends [("A", E)] E = none := by
      simp [lookupExtends, List.find?, hAE]
    have hwalk1 : hierWalk [("A", E)] 1 E [] = some [E] := by
      rw [hierWalk, hnorm, hlookE, hseg]
      rfl
    have hwalk : hierWalk [("A", E)] fuel E [] = some [E] :=
      hierWalk_fuel_le _ 1 fuel (le_trans (by decide) hf) _ _ _ hwalk1
    unfold hierPath
    rw [show lookupExtends [("A", E)] "A" = some E from by simp [lookupExtends, List.find?]]
    show Option.map (fun p => p ++ ["A" ++ ".md"]) (hierWalk [("A", E)] fuel E []) =
      some [E, "A.md"]
    rw [hwalk]
    rfl
  · have hwalk3 : hierWalk [("A", "B"), ("B", "C"), ("C", "")] 3 "B" [] = some ["C", "B"] := by
      rfl
    have hwalk : hierWalk [("A", "B"), ("B", "C"), ("C", "")] fuel "B" [] = some ["C", "B"] :=
      hierWalk_fuel_le _ 3 fuel hf _ _ _ hwalk3
    unfold hierPath
    rw [show lookupExtends [("A", "B"), ("B", "C"), ("C", "")] "A" = some "B" from rfl]
    show Option.map (fun p => p ++ ["A" ++ ".md"])
      (hierWalk [("A", "B"), ("B", "C"), ("C", "")] fuel "B" []) = some ["C", "B", "A.md"]
    rw [hwalk]
    rfl

/-- C1 amended witness at `E := "Node"`, `fuel := 3`. -/
theorem hierPath_unresolved_and_chain_witness :
    hierPath [("A", "Node")] 3 "A" = some ["Node", "A.md"] ∧
    hierPath [("A", "B"), ("B", "C"), ("C", "")] 3 "A" = some ["C", "B", "A.md"] :=
  hierPath_unresolved_and_chain "Node" 3 (by decide) (by decide) (by decide) (by decide)

/-- C6: if a set `S` of references is closed under the walk's step (each
member, after normalisation, is registered and its `extends` reference is
again in `S`) — in particular when the parsed classes' base references form
a cycle — then the hierarchy walk starting inside `S` never reaches its
`break`, i.e. it returns `none` for every fuel bound: the `while True` loop
does not terminate. -/
theorem hierWalk_cyclic (infos : List (String × String)) (S : List String)
    (hcl : ∀ b ∈ S, ∃ e, lookupExtends infos (normBase b) = some e ∧ e ∈ S) :
    ∀ (fuel : Nat) (base : String) (acc : List String), base ∈ S →
      hierWalk infos fuel base acc = none := by
  intro fuel
  induction fuel with
  | zero => intro base acc _; rfl
  | succ n ih =>
    intro base acc hb
    obtain ⟨e, hl, he⟩ := hcl base hb
    rw [hierWalk]
    simp only [hl]
    exact ih e _ he

/-- C6 witness: the two-class cycle `A extends B`, `B extends A` never
terminates (evaluated here at fuel 7). -/
theorem hierWalk_cyclic_witness : hierWalk [("A", "B"), ("B", "A")] 7 "A" [] = none :=
  hierWalk_cyclic [("A", "B"), ("B", "A")] ["A", "B"]
    (by
      intro b hb
      have hb2 : b = "A" ∨ b = "B" := by simpa using hb
      rcases hb2 with rfl | rfl
      · exact ⟨"B", by decide, by decide⟩
      · exact ⟨"A", by decide, by decide⟩)
    7 "A" [] (by simp)

/-- C3 (code bug): for each of the header lines `var x = []`,
`var x = [1,2,3]`, `var x = {}` and `var x = {"a":1}` (not
deferred-initialization), the parsed property's default is absent — not a
container placeholder.  The header pattern captures the default with
`\w+`, which cannot match a bracket, so these defaults are never captured
and the placeholder normalisation in the source is unreachable for them. -/
theorem c3_bracket_defaults_absent :
    (PropertyInfo.parse_from_script "var x = []\n" none false []).map
      (fun p => p.1.default) = some none ∧
    (PropertyInfo.parse_from_script "var x = [1,2,3]\n" none false []).map
      (fun p => p.1.default) = some none ∧
    (PropertyInfo.parse_from_script "var x = \x7b\x7d\n" none false []).map
      (fun p => p.1.default) = some none ∧
    (PropertyInfo.parse_from_script "var x = \x7b\"a\":1\x7d\n" none false []).map
      (fun p => p.1.default) = some none ∧
    (some (none : Option String) : Option (Option String)) ≠ some (some "[]") :=
  ⟨rfl, rfl, rfl, rfl, by decide⟩

/-- C4 (code bug): the single-line enum `enum E {A, B}` parses into a
member mapping whose keys are the `("A", None)`, `("B", None)` tuples that
`dict.fromkeys([(val, None) for val in values])` produces — not the member
name strings the field's own `dict[str, str | None]` annotation promises
(order is nevertheless textual left-to-right and all values are absent). -/
theorem c4_single_line_enum_tuple_keys :
    EnumInfo.parse_from_script "enum E \x7bA, B\x7d\n" none [] =
      some (some { name := "E", description := none,
                   vals := [(PyKey.tup "A" none, none), (PyKey.tup "B" none, none)] }, []) ∧
    [PyKey.tup "A" none, PyKey.tup "B" none] ≠ [PyKey.str "A", PyKey.str "B"] :=
  ⟨rfl, by decide⟩

/-- C8 (code bug): the same parameter text `a,b` parses to argument names
`a`, `b` when written on one line but to `a`, `\nb` when split across two
lines: the concatenated text keeps the first line's newline because the
source's `arg_str.replace('\n', '')` discards its result. -/
theorem c8_multiline_args_diverge :
    (MethodInfo.parse_from_script "func f(a,b):\n" none []).map
      (fun p => p.1.args.map ArgInfo.name) = some ["a", "b"] ∧
    (MethodInfo.parse_from_script "func f(a,\n" none ["\tb):\n"]).map
      (fun p => p.1.args.map ArgInfo.name) = some ["a", "\nb"] ∧
    (some ["a", "b"] : Option (List String)) ≠ some ["a", "\nb"] :=
  ⟨rfl, rfl, by decide⟩

/-- C10: a declaration whose parameter-list slice (between the first `(`
and the first `)`) is empty parses to exactly one argument whose name is
the empty string and whose type and default are absent. -/
theorem empty_paren_single_empty_arg (d : String) (h : argSlice d = "") :
    ArgInfo.parse_definition d = some [{ name := "", type := none, default := none }] := by
  unfold ArgInfo.parse_definition
  rw [h]
  rfl

/-- C10 witness: `func f():` has the empty parameter list and yields the
single empty-named argument. -/
theorem empty_paren_single_empty_arg_witness :
    ArgInfo.parse_definition "func f():" =
      some [{ name := "", type := none, default := none }] :=
  empty_paren_single_empty_arg "func f():" rfl

/-- C2 counterexample: for the script `class_name Foo` / `extends Bar` /
`## Summary line` / blank / `## Detail line`, the parsed class document's
description is absent, not `Detail line`: the blank line (not being a
doc-comment line) terminates the header scan as soon as the base class was
found. -/
theorem c2_blank_line_ends_header :
    (ClassInfo.parse_from_script
        ["class_name Foo\n", "extends Bar\n", "## Summary line\n", "\n", "## Detail line\n"]).map
      ClassInfo.description = some none ∧
    (some (none : Option String) : Option (Option String)) ≠ some (some "Detail line") :=
  ⟨rfl, by decide⟩

/-- C2 (amended): the example script yields name `Foo`, extends `Bar` and
summary `Summary line`, but the truly blank line stops the header scan, so
the description stays unset (and the summary, coming from a buffer without
a blank line, is not markup-converted); the detail line is consumed by the
dispatcher as a pending docstring that end of file discards; no
declarations are produced. -/
theorem c2_header_example_parse :
    (ClassInfo.parse_from_script
        ["class_name Foo\n", "extends Bar\n", "## Summary line\n", "\n", "## Detail line\n"]).map
      (fun c => (c.name, c.ext, c.summary, c.description,
        c.signals, c.enums, c.properties, c.methods)) =
      some (some "Foo", "Bar", some "Summary line", none, [], [], [], []) := rfl

/-- C5 counterexample: a lone annotation line such as `@export` is
non-blank and not a documentation comment, yet the dispatcher's `continue`
for it leaves the pending-docstring buffer intact for the next line. -/
theorem c5_lone_annotation_keeps_buffer :
    pyStrIsSpace "@export\n" = false ∧
    pyStartsWith (pyLstrip "@export\n") "##" = false ∧
    dispatchStep "@export\n" [] "doc\n" {} = some ([], "doc\n", {}) ∧
    ("doc\n" : String) ≠ "" :=
  ⟨rfl, rfl, rfl, by decide⟩

/-- Every branch of the keyword dispatch hands back an empty docstring
buffer. -/
theorem dispatchDecl_empty_docstring (onready : Bool) (line : String) (ls : List String)
    (description : Option String) (info : ClassInfo) (out : List String × String × ClassInfo)
    (h : dispatchDecl onready line ls description info = some out) : out.2.1 = "" := by
  unfold dispatchDecl at h
  by_cases hs : pyStartsWith line "signal" = true
  · rw [if_pos hs] at h
    obtain ⟨p, hp, he⟩ := Option.map_eq_some'.mp h
    rw [← he]
  · rw [if_neg hs] at h
    by_cases hn : pyStartsWith line "enum" = true
    · rw [if_pos hn] at h
      obtain ⟨p, hp, he⟩ := Option.map_eq_some'.mp h
      rw [← he]
    · rw [if_neg hn] at h
      by_cases hv : pyStartsWith line "var" = true
      · rw [if_pos hv] at h
        obtain ⟨p, hp, he⟩ := Option.map_eq_some'.mp h
        rw [← he]
      · rw [if_neg hv] at h
        by_cases hm : pyStartsWith line "func" = true
        · rw [if_pos hm] at h
          obtain ⟨p, hp, he⟩ := Option.map_eq_some'.mp h
          rw [← he]
        · rw [if_neg hm] at h
          injection h with h2
          rw [← h2]

/-- C5 (amended): for every line the dispatcher handles that is non-blank,
not a documentation comment and not an annotation-only line (a line
starting with `@` that is a single token — such a line `continue`s with
the buffer kept for the declaration that follows the annotation), the
pending-docstring buffer handed to the next iteration is empty, whether or
not a sub-parser matched and whether or not the description was
attached. -/
theorem dispatchStep_clears_docstring (l : String) (ls : List String) (doc : String)
    (info : ClassInfo) (rem : List String) (doc2 : String) (info2 : ClassInfo)
    (hblank : pyStrIsSpace l = false)
    (hdoc : pyStartsWith (pyLstrip l) "##" = false)
    (hann : (pyStartsWith l "@" && (pySplitWs l).length == 1) = false)
    (hstep : dispatchStep l ls doc info = some (rem, doc2, info2)) :
    dispatchStep l ls doc info = some (rem, "", info2) := by
  have hd2 : doc2 = "" := by
    unfold dispatchStep at hstep
    rw [if_neg (by simp [hblank]), if_neg (by simp [hdoc]), if_neg (by simp [hann])] at hstep
    split at hstep
    next => exact absurd hstep (by simp)
    next al heq =>
      have := dispatchDecl_empty_docstring al.1 al.2 ls
        (if doc ≠ "" then some (bbcode_to_md doc) else none) info (rem, doc2, info2) hstep
      simpa using this
  rw [← hd2]
  exact hstep

/-- C5 amended witness: the declaration line `var x = 5` with pending
docstring `d` hands an empty buffer to the next iteration. -/
theorem dispatchStep_clears_docstring_witness :
    dispatchStep "var x = 5\n" [] "d\n" {} =
      some ([], "",
        { properties := [⟨"x", none, some "d\n", some "5", false, false⟩] }) :=
  dispatchStep_clears_docstring "var x = 5\n" [] "d\n" {} [] ""
    { properties := [⟨"x", none, some "d\n", some "5", false, false⟩] }
    (by decide) (by decide) (by decide) rfl

/-- A header line that (after the `class_name` reassignment) does not start
with `extends` leaves the base-found flag unchanged. -/
theorem headerProcess_no_extends (st st2 : HeaderSt) (l : String)
    (hx : pyStartsWith (headerEff l) "extends" = false)
    (hp : headerProcess st l = some st2) :
    st2.defFound = st.defFound := by
  unfold headerEff at hx
  unfold headerProcess at hp
  split at hp
  next => exact absurd hp (by simp)
  next s1 h1 =>
    have hs11 : s1.1.defFound = st.defFound ∧ s1.2 = (if pyStartsWith l "class_name" then
        (pySplitWsMax 2 l).getLastD "" else l) := by
      by_cases hc : pyStartsWith l "class_name" = true
      · rw [if_pos hc] at h1
        cases hg : (pySplitWs l).get? 1 with
        | none => rw [hg] at h1; exact absurd h1 (by simp)
        | some nm =>
          rw [hg] at h1
          injection h1 with h1e
          rw [← h1e, if_pos hc]
          exact ⟨rfl, rfl⟩
      · rw [if_neg hc] at h1
        injection h1 with h1e
        rw [← h1e, if_neg hc]
        exact ⟨rfl, rfl⟩
    have hx2 : pyStartsWith s1.2 "extends" = false := by rw [hs11.2]; exact hx
    rw [if_neg (by simp [hx2])] at hp
    split at hp
    next => exact absurd hp (by simp)
    next stN h2 =>
      injection h2 with h2e
      split at hp
      · injection hp with hpe
        rw [← hpe, ← h2e]
        exact hs11.1
      · injection hp with hpe
        rw [← hpe, ← h2e]
        exact hs11.1

/-- If no line of the script (effectively) declares a base class, the
header scan ends at end of file with the base-found flag still unset, and
the only lines it hands back are the trailing blank lines it read past its
last checkpoint. -/
theorem headerLoop_no_extends :
    ∀ (lines : List String) (st : HeaderSt) (pend rem : List String) (st2 : HeaderSt),
      (∀ l ∈ lines, pyStartsWith (headerEff l) "extends" = false) →
      st.defFound = false → pend.all pyStrIsSpace = true →
      headerLoop st pend lines = some (rem, st2) →
      rem.all pyStrIsSpace = true ∧ st2.defFound = false := by
  intro lines
  induction lines with
  | nil =>
    intro st pend rem st2 _ hdf hpend hl
    rw [headerLoop] at hl
    simp only [Option.some.injEq, Prod.mk.injEq] at hl
    rw [← hl.1, ← hl.2]
    exact ⟨hpend, hdf⟩
  | cons l ls ih =>
    intro st pend rem st2 hall hdf hpend hl
    rw [headerLoop] at hl
    rw [if_neg (by simp [hdf])] at hl
    by_cases hb : pyStrIsSpace l = true
    · rw [if_pos hb] at hl
      refine ih st (pend ++ [l]) rem st2 (fun x hx => hall x (List.mem_cons_of_mem _ hx)) hdf
        ?_ hl
      simp [List.all_append, hpend, hb]
    · rw [if_neg hb] at hl
      cases hP : headerProcess st l with
      | none => rw [hP] at hl; exact absurd hl (by simp)
      | some stN =>
        rw [hP] at hl
        have hdfN : stN.defFound = false := by
          rw [headerProcess_no_extends st stN l (hall l (List.mem_cons_self l ls)) hP]
          exact hdf
        exact ih stN [] rem st2 (fun x hx => hall x (List.mem_cons_of_mem _ hx)) hdfN rfl hl

/-- A dispatcher run over blank lines only leaves the class document
untouched. -/
theorem dispatchLoop_all_blank :
    ∀ (fuel : Nat) (rem : List String) (doc : String) (info info2 : ClassInfo),
      rem.all pyStrIsSpace = true → dispatchLoop fuel rem doc info = some info2 →
      info2 = info := by
  intro fuel
  induction fuel with
  | zero =>
    intro rem doc info info2 hall hl
    cases rem with
    | nil =>
      rw [dispatchLoop] at hl
      injection hl with h2
      exact h2.symm
    | cons l ls => exact absurd hl (by simp [dispatchLoop])
  | succ n ih =>
    intro rem doc info info2 hall hl
    cases rem with
    | nil =>
      rw [dispatchLoop] at hl
      injection hl with h2
      exact h2.symm
    | cons l ls =>
      rw [dispatchLoop] at hl
      have hb : pyStrIsSpace l = true := by
        simp only [List.all_cons, Bool.and_eq_true] at hall
        exact hall.1
      have hstep : dispatchStep l ls doc info = some (ls, doc, info) := by
        unfold dispatchStep
        rw [if_pos hb]
      rw [hstep] at hl
      refine ih ls doc info info2 ?_ hl
      simp only [List.all_cons, Bool.and_eq_true] at hall
      exact hall.2

/-- C7 counterexample: a script with no base-class line whose last line is
blank — here `## x` then a blank line — is not entirely consumed by the
header parser: the blank-line `continue` skips the checkpoint update, so
the dispatcher is handed the trailing blank line, contradicting "the
dispatcher sees no remaining lines". -/
theorem c7_trailing_blank_counterexample :
    ClassInfo.parse_script_header ["## x\n", "\n"] =
      some (["\n"], { fullDesc := "x\n" }) ∧ (["\n"] : List String) ≠ ([] : List String) :=
  ⟨rfl, by decide⟩

/-- C7 (amended): for every script containing no base-class declaration
line (none of its lines, after the `class_name` reassignment, starts with
`extends`), the header parser consumes every line except at most a run of
trailing blank lines, so the dispatcher sees only blank lines and the
class document contains no signals, enums, properties or methods. -/
theorem no_extends_header_consumes_all (lines : List String)
    (h : ∀ l ∈ lines, pyStartsWith (headerEff l) "extends" = false) :
    (∀ rem st, ClassInfo.parse_script_header lines = some (rem, st) →
      rem.all pyStrIsSpace = true) ∧
    (∀ info, ClassInfo.parse_from_script lines = some info →
      info.signals = [] ∧ info.enums = [] ∧ info.properties = [] ∧ info.methods = []) := by
  constructor
  · intro rem st hp
    exact (headerLoop_no_extends lines {} [] rem st h rfl rfl hp).1
  · intro info hp
    unfold ClassInfo.parse_from_script at hp
    cases hH : ClassInfo.parse_script_header lines with
    | none => rw [hH] at hp; exact absurd hp (by simp)
    | some rs =>
      rw [hH] at hp
      have hrem : rs.1.all pyStrIsSpace = true :=
        (headerLoop_no_extends lines {} [] rs.1 rs.2 h rfl rfl hH).1
      have hinfo := dispatchLoop_all_blank (rs.1.length + 1) rs.1 ""
        { name := rs.2.nm, ext := rs.2.ext, summary := (headerSummaryDesc rs.2.fullDesc).1,
          description := (headerSummaryDesc rs.2.fullDesc).2 } info hrem hp
      rw [hinfo]
      exact ⟨rfl, rfl, rfl, rfl⟩

/-- C7 amended witness: for the concrete no-extends script
`## x` / blank, the header hands the dispatcher only the blank line. -/
theorem no_extends_header_consumes_all_witness :
    (["\n"] : List String).all pyStrIsSpace = true :=
  (no_extends_header_consumes_all ["## x\n", "\n"] (by decide)).1 ["\n"]
    { fullDesc := "x\n" } rfl
